import Mathlib

/-!
Verification development for the `libpac` PAC archive codec
(`libpac/pac.py`), shallowly embedded in Lean 4.

Modelling conventions:
* Python `bytes` values are `List Nat`; the entries produced by the code
  itself are always < 256 (outputs of `struct.pack`).  `latin-1`
  encoding/decoding is the identity on byte values, so file names are kept
  as byte lists throughout.
* All `struct` integers in this format are little-endian `u32`
  (format character `I`); `struct.pack` range-checks its arguments and
  `struct.unpack` / `struct.unpack_from` check buffer lengths, both raising
  `struct.error`.
* Python exceptions are modelled by `Except PacError`: `ValueError`
  (the library's format errors) as `.formatError`, `struct.error` as
  `.structError`, `ZeroDivisionError` as `.zeroDivisionError` and
  `IndexError` (tuple index out of range) as `.indexError`.
* Filesystem access is out of scope: the writer is given the list of
  (base name, contents) pairs that `_get_file_list`/`os.path.basename`/
  `os.path.getsize`/`open(...).read()` would produce, and the extractor
  returns the list of (file name, file data) pairs it would write to disk,
  in write order.
-/

namespace Libpac

/-- A byte string (Python `bytes`), one `Nat` per byte. -/
abbrev Bytes := List Nat

/-- The Python exceptions the code in `pac.py` can raise. -/
inductive PacError where
  /-- `ValueError`, the library's own validation failures. -/
  | formatError
  /-- `ZeroDivisionError` (division by a zero `file_count`). -/
  | zeroDivisionError
  /-- `struct.error` (buffer length / item count / range mismatch). -/
  | structError
  /-- `IndexError` (tuple index out of range). -/
  | indexError
deriving DecidableEq, Repr

/-- Model of `PAC_PREFIX = b"FPAC"` (the source's magic-marker constant). -/
def PAC_MAGIC : Bytes := [70, 80, 65, 67]

/-- Model of `PAC_HEADER_SIZE = 32`. -/
def PAC_HEADER_SIZE : Nat := 32

/-- Model of `INT_SIZE = struct.calcsize("I") = 4`. -/
def INT_SIZE : Nat := 4

/-- Model of `BLOCK_SIZE = 4 * INT_SIZE = 16`. -/
def BLOCK_SIZE : Nat := 16

/-- Little-endian bytes of a `u32` value (`struct.pack("I", n)` payload). -/
def le32 (n : Nat) : Bytes :=
  [n % 256, n / 256 % 256, n / 65536 % 256, n / 16777216 % 256]

/-- Read a little-endian `u32` from the front of a byte string.  Only
evaluated behind `struct`'s buffer-length checks, so the under-length
default is never observable. -/
def readU32 : Bytes → Nat
  | b0 :: b1 :: b2 :: b3 :: _ => b0 + 256 * b1 + 65536 * b2 + 16777216 * b3
  | _ => 0

/-- Model of `struct.pack("I", n)`: range-checks the argument, then emits the four
little-endian bytes. -/
def packU32 (n : Nat) : Except PacError Bytes :=
  if n < 4294967296 then .ok (le32 n) else .error .structError

/-- Run an error-prone function over a list, left to right, stopping at the
first failure (the shape of every per-item loop in `pac.py`). -/
def mapExcept (f : α → Except PacError β) : List α → Except PacError (List β)
  | [] => .ok []
  | a :: l =>
    match f a with
    | .error e => .error e
    | .ok b =>
      match mapExcept f l with
      | .error e => .error e
      | .ok bs => .ok (b :: bs)

/-- Model of `_unpack_from("III", data)`: three `u32`s from the front of `data`
plus the remaining bytes; `struct.error` if the buffer is too short. -/
def unpackFromIII (data : Bytes) : Except PacError ((Nat × Nat × Nat) × Bytes) :=
  if data.length < 12 then .error .structError
  else .ok ((readU32 data, readU32 (data.drop 4), readU32 (data.drop 8)), data.drop 12)

/-- Model of `_unpack_from("IIII", data)`: four `u32`s from the front of `data`
plus the remaining bytes; `struct.error` if the buffer is too short. -/
def unpackFromIIII (data : Bytes) : Except PacError ((Nat × Nat × Nat × Nat) × Bytes) :=
  if data.length < 16 then .error .structError
  else
    .ok ((readU32 data, readU32 (data.drop 4), readU32 (data.drop 8), readU32 (data.drop 12)),
      data.drop 16)

/-- Result of `_parse_header`.  `entry_size` is an `Int` because Python
computes `(data_start - PAC_HEADER_SIZE) / file_count`, which is negative
when `data_start < 32`. -/
structure ParsedHeader where
  data_start : Nat
  string_size : Nat
  file_count : Nat
  entry_size : Int
  remaining : Bytes
deriving DecidableEq, Repr

/-- Model of `_parse_header(pac_contents)`.  Checks the magic marker, unpacks
`(data_start, total_size, file_count)` and `(unknown, string_size,
unknown, unknown)`, then computes
`entry_size = (data_start - PAC_HEADER_SIZE) / file_count`, raising
`ZeroDivisionError` when `file_count == 0` and `ValueError` when the
division is not exact. -/
def parseHeader (pac_contents : Bytes) : Except PacError ParsedHeader :=
  if pac_contents.take PAC_MAGIC.length ≠ PAC_MAGIC then .error .formatError
  else
    let remaining := pac_contents.drop PAC_MAGIC.length
    match unpackFromIII remaining with
    | .error e => .error e
    | .ok ((data_start, _total_size, file_count), remaining) =>
      match unpackFromIIII remaining with
      | .error e => .error e
      | .ok ((_u0, string_size, _u1, _u2), remaining) =>
        if file_count = 0 then .error .zeroDivisionError
        else
          let diff : Int := (data_start : Int) - (PAC_HEADER_SIZE : Int)
          if diff % (file_count : Int) ≠ 0 then .error .formatError
          else .ok ⟨data_start, string_size, file_count, diff / (file_count : Int), remaining⟩

/-- Model of `_get_format(string_size, entry_size)` reduced to its numeric content:
the number of `"I"` fields, `(entry_size - string_size) / INT_SIZE`,
validated to be an integer.  The count may be negative (Python then builds
`"I" * num_ints = ""`, i.e. effectively `max num_ints 0` integer fields,
which is why consumers use `.toNat`). -/
def getFormatNumInts (string_size entry_size : Nat) : Except PacError Int :=
  if ((entry_size : Int) - (string_size : Int)) % (INT_SIZE : Int) ≠ 0 then .error .formatError
  else .ok (((entry_size : Int) - (string_size : Int)) / (INT_SIZE : Int))

/-- One parsed directory entry (a `(file_name, file_id, file_offset,
file_size)` tuple of `_enumerate_files`). -/
structure FileEntry where
  name : Bytes
  id : Nat
  offset : Nat
  size : Nat
deriving DecidableEq, Repr

/-- Model of `bytes.rstrip(b"\x00")`: drop trailing zero bytes. -/
def rstripNulls (b : Bytes) : Bytes :=
  (b.reverse.dropWhile fun x => x == 0).reverse

/-- Native-mode struct alignment: the byte offset of the first `I` field
after an `{n}s` name field, i.e. `n` rounded up to the next multiple of 4
(the formats in `pac.py` carry no byte-order prefix, so CPython inserts
pad bytes to put each `I` on a 4-byte boundary). -/
def alignIntOffset (string_size : Nat) : Nat :=
  string_size + (4 - string_size % 4) % 4

/-- Model of `struct.calcsize` for the entry format
`"{string_size}s" + "I" * fmt_ints` in native mode: with no integer
fields it is just the name width; otherwise the aligned offset of the
first integer plus 4 bytes per integer (struct adds no trailing
padding). -/
def entryCalcSize (string_size fmt_ints : Nat) : Nat :=
  if fmt_ints = 0 then string_size
  else alignIntOffset string_size + INT_SIZE * fmt_ints

/-- Zero bytes `struct.pack` inserts between the name field and the first
integer field of the entry format in native mode (empty when the name
width is already 4-byte aligned or there are no integer fields). -/
def entryPackPad (string_size fmt_ints : Nat) : Bytes :=
  if fmt_ints = 0 then []
  else List.replicate (alignIntOffset string_size - string_size) 0

/-- Decode one directory entry slice: `struct.unpack(fmt, entry_data)`
(which demands a buffer of exactly `calcsize(fmt)` bytes and reads each
`I` at its aligned offset) followed by the source's
`unpacked[0] .. unpacked[3]` tuple accesses; with fewer than three integer
fields the access past the end raises `IndexError`. -/
def decodeEntry (string_size fmt_ints : Nat) (entry_data : Bytes) : Except PacError FileEntry :=
  if entry_data.length ≠ entryCalcSize string_size fmt_ints then .error .structError
  else
    let file_name := entry_data.take string_size
    let ints := (List.range fmt_ints).map fun i =>
      readU32 (entry_data.drop (alignIntOffset string_size + INT_SIZE * i))
    match ints[0]?, ints[1]?, ints[2]? with
    | some file_id, some file_offset, some file_size =>
      .ok ⟨rstripNulls file_name, file_id, file_offset, file_size⟩
    | _, _, _ => .error .indexError

/-- Model of `_enumerate_files(pac_contents, file_count, string_size, entry_size)`:
fixed-size slices at `file_index * entry_size`, decoded independently;
returns the entry list and the bytes after `file_count * entry_size`. -/
def enumerateFiles (pac_contents : Bytes) (file_count string_size entry_size : Nat) :
    Except PacError (List FileEntry × Bytes) :=
  let total_entry_size := file_count * entry_size
  match getFormatNumInts string_size entry_size with
  | .error e => .error e
  | .ok num_ints =>
    match mapExcept
        (fun file_index => decodeEntry string_size num_ints.toNat
          ((pac_contents.drop (file_index * entry_size)).take entry_size))
        (List.range file_count) with
    | .error e => .error e
    | .ok file_list => .ok (file_list, pac_contents.drop total_entry_size)

/-- Model of `enumerate_pac` with the file already read into `pac_contents`.
`entry_size.toNat` reflects that every archive with `data_start ≥ 32` has a
nonnegative entry size; the `data_start < 32` corner (where Python would go
on to slice with a negative step-free range) is not exercised by any
theorem below. -/
def enumeratePac (pac_contents : Bytes) : Except PacError (List FileEntry) :=
  match parseHeader pac_contents with
  | .error e => .error e
  | .ok h =>
    match enumerateFiles h.remaining h.file_count h.string_size h.entry_size.toNat with
    | .error e => .error e
    | .ok (file_list, _) => .ok file_list

/-- Model of `_extract_files(pac_contents, file_list, out_dir, extract_filter)`:
optionally filter the entry list, then for each surviving entry slice
`pac_contents[file_offset : file_offset + file_size]` and write it out
under the entry's name.  The returned list is the sequence of
(file name, file data) writes. -/
def extractFiles (pac_contents : Bytes) (file_list : List FileEntry)
    (extract_filter : Option (FileEntry → Bool)) : List (Bytes × Bytes) :=
  let file_list :=
    match extract_filter with
    | some p => file_list.filter p
    | none => file_list
  file_list.map fun e => (e.name, (pac_contents.drop e.offset).take e.size)

/-- Model of `extract_pac` with the file already read into `pac_contents` (output
directory handling is I/O glue and out of scope): parse the header,
enumerate the directory from the bytes after the header, then extract from
`pac_contents[data_start:]`. -/
def extractPac (pac_contents : Bytes) (extract_filter : Option (FileEntry → Bool)) :
    Except PacError (List (Bytes × Bytes)) :=
  match parseHeader pac_contents with
  | .error e => .error e
  | .ok h =>
    match enumerateFiles h.remaining h.file_count h.string_size h.entry_size.toNat with
    | .error e => .error e
    | .ok (file_list, _) =>
      let data_contents := pac_contents.drop h.data_start
      .ok (extractFiles data_contents file_list extract_filter)

/-- A source file handed to the writer: its base name (`os.path.basename`,
latin-1 encoded) and its contents (whose length is `os.path.getsize`). -/
structure SrcFile where
  name : Bytes
  contents : Bytes
deriving DecidableEq, Repr

/-- The `string_size` max-accumulation loop of `_parse_file_list`
(`if name_len > string_size: string_size = name_len`). -/
def maxNameLen (file_list : List SrcFile) : Nat :=
  file_list.foldl (fun string_size f =>
    if string_size < f.name.length then f.name.length else string_size) 0

/-- The `remainder = string_size % INT_SIZE` rounding step of
`_parse_file_list`. -/
def roundStringSize (string_size : Nat) : Nat :=
  if string_size % INT_SIZE ≠ 0 then string_size + (INT_SIZE - string_size % INT_SIZE)
  else string_size

/-- The `while entry_size < double_string or entry_size % BLOCK_SIZE != 0`
loop of `_parse_file_list`, with explicit fuel.  The Python loop is only
ever entered with `entry_size = string_size` already a multiple of 4, on
which it terminates; `entrySizeLoop_reaches` below shows fuel
`2 * string_size + BLOCK_SIZE` always suffices there, so the `none` branch
is unreachable at the call site. -/
def entrySizeLoop : Nat → Nat → Nat → Option Nat
  | 0, _, _ => none
  | fuel + 1, double_string, entry_size =>
    if entry_size < double_string ∨ entry_size % BLOCK_SIZE ≠ 0 then
      entrySizeLoop fuel double_string (entry_size + INT_SIZE)
    else some entry_size

/-- Sum of the file sizes (`total_file_size` accumulation). -/
def totalFileSize (file_list : List SrcFile) : Nat :=
  (file_list.map fun f => f.contents.length).sum

/-- The derived name-column width of `_parse_file_list`. -/
def derivedStringSize (file_list : List SrcFile) : Nat :=
  roundStringSize (maxNameLen file_list)

/-- The derived entry width of `_parse_file_list` (the while loop started
at `string_size`; `.getD 0` discharges the fuel bound, which
`entrySizeLoop_reaches` proves is never hit). -/
def derivedEntrySize (file_list : List SrcFile) : Nat :=
  let string_size := derivedStringSize file_list
  (entrySizeLoop (2 * string_size + BLOCK_SIZE) (2 * string_size) string_size).getD 0

/-- Model of `_parse_file_list(file_list)`: returns `(string_size, file_count,
entry_size, total_file_size, parsed_file_list)` where the parsed list
pairs each file with its base-name length and its size. -/
def parseFileList (file_list : List SrcFile) :
    Nat × Nat × Nat × Nat × List (SrcFile × Nat × Nat) :=
  (derivedStringSize file_list, file_list.length, derivedEntrySize file_list,
    totalFileSize file_list, file_list.map fun f => (f, f.name.length, f.contents.length))

/-- Model of `_build_header(total_size, data_start, string_size, file_count)`:
magic, `struct.pack("III", data_start, total_size, file_count)`, then
`struct.pack("IIII", 1, string_size, 0, 0)`. -/
def buildHeader (total_size data_start string_size file_count : Nat) : Except PacError Bytes :=
  match mapExcept packU32 [data_start, total_size, file_count] with
  | .error e => .error e
  | .ok packed1 =>
    match mapExcept packU32 [1, string_size, 0, 0] with
    | .error e => .error e
    | .ok packed2 => .ok (PAC_MAGIC ++ packed1.flatten ++ packed2.flatten)

/-- Model of `struct.pack("{w}s", b)`: truncate or null-pad `b` to exactly `w`
bytes. -/
def packBytesField (width : Nat) (b : Bytes) : Bytes :=
  b.take width ++ List.replicate (width - b.length) 0

/-- The per-file loop of `_build_file_entries`.  Each iteration pads or
rejects the name, then packs
`struct.pack(fmt, file_name_bytes, file_id, file_offset, file_size, *pad)`:
the pack fails with `struct.error` unless the `3 + len(pad)` integers
match the format's `fmt_ints` integer fields, and each integer is
range-checked; on success struct emits the name, its native-mode
alignment pad bytes, then the integers. -/
def buildEntriesGo (string_size fmt_ints : Nat) (pad : List Nat) :
    List (SrcFile × Nat × Nat) → Nat → Nat → Except PacError Bytes
  | [], _, _ => .ok []
  | (f, name_len, file_size) :: rest, file_id, file_offset =>
    if string_size < name_len then .error .formatError
    else if 3 + pad.length ≠ fmt_ints then .error .structError
    else
      match mapExcept packU32 ([file_id, file_offset, file_size] ++ pad) with
      | .error e => .error e
      | .ok packed =>
        match buildEntriesGo string_size fmt_ints pad rest (file_id + 1)
            (file_offset + file_size) with
        | .error e => .error e
        | .ok rest_entries =>
          .ok ((packBytesField string_size
              (f.name ++ List.replicate (string_size - name_len) 0) ++
            entryPackPad string_size fmt_ints ++ packed.flatten) ++ rest_entries)

/-- Model of `_build_file_entries(parsed_file_list, string_size, entry_size)`:
derive the format, compute the null padding
`(0,) * int((entry_size - string_size - 3*INT_SIZE) / INT_SIZE)` (a
negative repeat count yields the empty tuple, hence `.toNat`), then run
the per-file loop with `file_id = file_offset = 0`. -/
def buildFileEntries (parsed_file_list : List (SrcFile × Nat × Nat))
    (string_size entry_size : Nat) : Except PacError Bytes :=
  match getFormatNumInts string_size entry_size with
  | .error e => .error e
  | .ok num_ints =>
    let pad_length : Int :=
      (entry_size : Int) - (string_size : Int) - 3 * (INT_SIZE : Int)
    let pad : List Nat := List.replicate (pad_length / (INT_SIZE : Int)).toNat 0
    buildEntriesGo string_size num_ints.toNat pad parsed_file_list 0 0

/-- Model of `_build_file_contents(parsed_file_list)`: concatenation of the files'
bytes in list order. -/
def buildFileContents (parsed_file_list : List (SrcFile × Nat × Nat)) : Bytes :=
  (parsed_file_list.map fun t => t.1.contents).flatten

/-- Model of `create_pac` for a given file list (directory listing, create-filter
and output-path handling are I/O glue and out of scope): derive the
layout, compute `data_start` and `total_size`, build header ++ entries ++
contents, and check the final length against `total_size`. -/
def createPac (file_list : List SrcFile) : Except PacError Bytes :=
  match parseFileList file_list with
  | (string_size, file_count, entry_size, total_file_size, parsed_file_list) =>
    let data_start := PAC_HEADER_SIZE + file_count * entry_size
    let total_size := data_start + total_file_size
    match buildHeader total_size data_start string_size file_count with
    | .error e => .error e
    | .ok header =>
      match buildFileEntries parsed_file_list string_size entry_size with
      | .error e => .error e
      | .ok file_entries =>
        let pac_contents := header ++ file_entries ++ buildFileContents parsed_file_list
        if pac_contents.length ≠ total_size then .error .formatError
        else .ok pac_contents

/-- Specification shape of one encoded directory entry: the null-padded
name, then `id`, `offset`, `size` and `fmt_ints - 3` zero padding words,
each as a little-endian `u32`. -/
def entryBlock (string_size fmt_ints : Nat) (f : SrcFile) (file_id file_offset : Nat) : Bytes :=
  packBytesField string_size (f.name ++ List.replicate (string_size - f.name.length) 0) ++
    (([file_id, file_offset, f.contents.length] ++ List.replicate (fmt_ints - 3) 0).map le32).flatten

/-- Specification shape of the whole directory: blocks in input order with
sequential ids and cumulative offsets. -/
def entryBlocks (string_size fmt_ints : Nat) :
    List SrcFile → Nat → Nat → Bytes
  | [], _, _ => []
  | f :: rest, file_id, file_offset =>
    entryBlock string_size fmt_ints f file_id file_offset ++
      entryBlocks string_size fmt_ints rest (file_id + 1) (file_offset + f.contents.length)

/-- Sum of the sizes of the first `i` files: the offset the writer assigns
to file `i`. -/
def sumTake (file_list : List SrcFile) (i : Nat) : Nat :=
  ((file_list.take i).map fun f => f.contents.length).sum

/-- The header bytes `_build_header` emits (magic, `data_start`,
`total_size`, `file_count`, `1`, `string_size`, `0`, `0`). -/
def headerBytesSpec (total_size data_start string_size file_count : Nat) : Bytes :=
  PAC_MAGIC ++ le32 data_start ++ le32 total_size ++ le32 file_count ++
    le32 1 ++ le32 string_size ++ le32 0 ++ le32 0

/-- The archive bytes `create_pac` produces on a successful build: header,
then the directory blocks (sequential ids, cumulative offsets), then the
concatenated file contents. -/
def pacBytesSpec (files : List SrcFile) : Bytes :=
  headerBytesSpec
      (PAC_HEADER_SIZE + files.length * derivedEntrySize files + totalFileSize files)
      (PAC_HEADER_SIZE + files.length * derivedEntrySize files)
      (derivedStringSize files) files.length ++
    (entryBlocks (derivedStringSize files)
        ((derivedEntrySize files - derivedStringSize files) / 4) files 0 0 ++
      (files.map fun f => f.contents).flatten)

/-- The spec's worked scenario: `a.txt` containing `"abc"` and `bb.txt`
containing `"xy"` (latin-1 byte values). -/
def c1Files : List SrcFile :=
  [⟨[97, 46, 116, 120, 116], [97, 98, 99]⟩, ⟨[98, 98, 46, 116, 120, 116], [120, 121]⟩]

/-- A single file `hello` (5-byte name) containing `"x"`. -/
def c2CounterFiles : List SrcFile := [⟨[104, 101, 108, 108, 111], [120]⟩]

/-- Two files with short names: `abcd` with 2 bytes and `z` with 3 bytes. -/
def c2WitnessFiles : List SrcFile := [⟨[97, 98, 99, 100], [10, 20]⟩, ⟨[122], [7, 8, 9]⟩]

/-- A single file `abcdef` (6-byte name) containing `"1"`. -/
def c4CounterFiles : List SrcFile := [⟨[97, 98, 99, 100, 101, 102], [49]⟩]

/-- Three files `n1`, `n2`, `n3` with 2, 1 and 0 bytes of data. -/
def c4WitnessFiles : List SrcFile :=
  [⟨[110, 49], [1, 2]⟩, ⟨[110, 50], [3]⟩, ⟨[110, 51], []⟩]

/-- A single file `q` with one byte of data. -/
def c3WitnessFiles : List SrcFile := [⟨[113], [5]⟩]

/-- A hand-built archive: header with `data_start = 48`, `file_count = 1`,
`string_size = 4`, one entry (`ab`, id 0, offset 0, size 2) and payload
`"xy"`. -/
def c6SamplePac : Bytes :=
  PAC_MAGIC ++ le32 48 ++ le32 50 ++ le32 1 ++ le32 1 ++ le32 4 ++ le32 0 ++ le32 0 ++
    [97, 98, 0, 0] ++ le32 0 ++ le32 0 ++ le32 2 ++ [120, 121]

/-- A single file named `longn` (5 bytes) with empty contents. -/
def c8WitnessFiles : List SrcFile := [⟨[108, 111, 110, 103, 110], []⟩]

/-- The archive `create_pac` writes for an empty directory: a bare header
with `data_start = total_size = 32` and `file_count = 0`. -/
def c9EmptyPac : Bytes :=
  PAC_MAGIC ++ le32 32 ++ le32 32 ++ le32 0 ++ le32 1 ++ le32 0 ++ le32 0 ++ le32 0

/-- A well-formed header announcing `data_start = 64`, `total_size = 69`,
`file_count = 2`, `string_size = 8`. -/
def c5WitnessHeader : Bytes :=
  PAC_MAGIC ++ le32 64 ++ le32 69 ++ le32 2 ++ le32 1 ++ le32 8 ++ le32 0 ++ le32 0

/-- Sixteen zero bytes: one directory entry's worth of data for the broken
`string_size = 8`, `entry_size = 16` layout. -/
def c10WitnessData : Bytes := List.replicate 16 0

/-- Twelve zero bytes: more than enough archive data for the unaligned
`string_size = 5`, `entry_size = 9` layout, whose 9-byte entry slice is
still shorter than `calcsize("5sI") = 12`. -/
def c10CounterData : Bytes := List.replicate 12 0

/-! ### Generic list helpers -/

theorem drop_append_length {α : Type} (a b : List α) (n : Nat) :
    (a ++ b).drop (a.length + n) = b.drop n := by
  induction a with
  | nil => simp
  | cons x a ih => simp [Nat.succ_add, ih]

theorem drop_append_self {α : Type} (a b : List α) : (a ++ b).drop a.length = b := by
  simp

theorem take_append_self {α : Type} (a b : List α) : (a ++ b).take a.length = a := by
  induction a with
  | nil => simp
  | cons x a ih => simp [ih]

theorem take_append_eq {α : Type} (a b : List α) (n : Nat) (h : a.length = n) :
    (a ++ b).take n = a := by
  subst h
  exact take_append_self a b

theorem drop_append_eq {α : Type} (a b : List α) (n m : Nat) (h : a.length = n) :
    (a ++ b).drop (n + m) = b.drop m := by
  subst h
  exact drop_append_length a b m

theorem mapExcept_ok_of {α β : Type} (f : α → Except PacError β) (g : α → β) :
    ∀ l : List α, (∀ a ∈ l, f a = .ok (g a)) → mapExcept f l = .ok (l.map g) := by
  intro l h
  induction l with
  | nil => rfl
  | cons a l ih =>
    have ha := h a (by simp)
    have hl := ih fun x hx => h x (List.mem_cons_of_mem _ hx)
    simp [mapExcept, ha, hl]

/-! ### Little-endian `u32` lemmas -/

theorem length_le32 (n : Nat) : (le32 n).length = 4 := rfl

theorem readU32_le32_append (n : Nat) (r : Bytes) (h : n < 4294967296) :
    readU32 (le32 n ++ r) = n := by
  simp only [le32, List.cons_append, List.nil_append, readU32]
  omega

theorem drop4_le32 (n : Nat) (r : Bytes) : (le32 n ++ r).drop 4 = r := rfl

theorem packU32_ok (n : Nat) (h : n < 4294967296) : packU32 n = .ok (le32 n) := by
  simp [packU32, h]

theorem mapExcept_packU32 (l : List Nat) (h : ∀ n ∈ l, n < 4294967296) :
    mapExcept packU32 l = .ok (l.map le32) :=
  mapExcept_ok_of packU32 le32 l fun n hn => packU32_ok n (h n hn)

theorem length_flatten_le32 (l : List Nat) : ((l.map le32).flatten).length = 4 * l.length := by
  induction l with
  | nil => rfl
  | cons x l ih => simp [ih, le32]; omega

theorem readU32_flatten_le32 (l : List Nat) (hall : ∀ n ∈ l, n < 4294967296) :
    ∀ j, (hj : j < l.length) →
      readU32 (((l.map le32).flatten).drop (4 * j)) = l[j] := by
  induction l with
  | nil => intro j hj; simp at hj
  | cons x l ih =>
    intro j hj
    cases j with
    | zero =>
      simpa using readU32_le32_append x ((l.map le32).flatten) (hall x (by simp))
    | succ j =>
      have h4 : 4 * (j + 1) = (le32 x).length + 4 * j := by simp [length_le32]; omega
      have := ih (fun n hn => hall n (List.mem_cons_of_mem _ hn)) j (by simpa using hj)
      simpa [h4, drop_append_length] using this

/-! ### Layout-derivation lemmas -/

theorem roundStringSize_mod (s : Nat) : roundStringSize s % 4 = 0 := by
  simp only [roundStringSize, INT_SIZE]
  split <;> omega

theorem le_roundStringSize (s : Nat) : s ≤ roundStringSize s := by
  simp only [roundStringSize, INT_SIZE]
  split <;> omega

theorem roundStringSize_le (s : Nat) : roundStringSize s ≤ s + 3 := by
  simp only [roundStringSize, INT_SIZE]
  split <;> omega

theorem entrySizeLoop_spec :
    ∀ (fuel double_string entry_size r : Nat),
      entrySizeLoop fuel double_string entry_size = some r →
      double_string ≤ r ∧ r % BLOCK_SIZE = 0 ∧ entry_size ≤ r := by
  intro fuel
  induction fuel with
  | zero => intro ds e r h; simp [entrySizeLoop] at h
  | succ fuel ih =>
    intro ds e r h
    simp only [entrySizeLoop] at h
    split at h
    · have := ih ds (e + INT_SIZE) r h
      simp only [INT_SIZE] at this
      omega
    · rename_i hguard
      simp only [Option.some.injEq] at h
      subst h
      simp only [not_or, Nat.not_lt] at hguard
      omega

theorem entrySizeLoop_reaches :
    ∀ (fuel double_string entry_size : Nat),
      (∃ k, k < fuel ∧ ¬(entry_size + 4 * k < double_string ∨
        (entry_size + 4 * k) % BLOCK_SIZE ≠ 0)) →
      (entrySizeLoop fuel double_string entry_size).isSome := by
  intro fuel
  induction fuel with
  | zero => intro ds e h; omega
  | succ fuel ih =>
    intro ds e h
    obtain ⟨k, hk, hguard⟩ := h
    simp only [entrySizeLoop]
    split
    · rename_i hg
      apply ih
      refine ⟨k - 1, ?_, ?_⟩
      · -- k ≠ 0: the guard holds at entry_size but fails at entry_size + 4*k
        have hk0 : k ≠ 0 := by
          intro h0
          subst h0
          simp only [Nat.mul_zero, Nat.add_zero] at hguard
          exact hguard hg
        omega
      · have hk0 : k ≠ 0 := by
          intro h0
          subst h0
          simp only [Nat.mul_zero, Nat.add_zero] at hguard
          exact hguard hg
        have : e + INT_SIZE + 4 * (k - 1) = e + 4 * k := by
          simp only [INT_SIZE]; omega
        rw [this]
        exact hguard
    · simp

theorem entrySizeLoop_le :
    ∀ (fuel double_string entry_size r T : Nat),
      entrySizeLoop fuel double_string entry_size = some r →
      double_string ≤ T → T % BLOCK_SIZE = 0 → entry_size ≤ T →
      (T - entry_size) % 4 = 0 → r ≤ T := by
  intro fuel
  induction fuel with
  | zero => intro ds e r T h; simp [entrySizeLoop] at h
  | succ fuel ih =>
    intro ds e r T h hdsT hT16 heT hmod
    simp only [entrySizeLoop] at h
    split at h
    · rename_i hg
      refine ih ds (e + INT_SIZE) r T h hdsT hT16 ?_ ?_
      · -- the guard excludes e = T, so e + 4 ≤ T
        have heT' : e ≠ T := by
          intro heq; subst heq
          rcases hg with h1 | h2
          · omega
          · exact h2 hT16
        simp only [INT_SIZE, BLOCK_SIZE] at *
        omega
      · simp only [INT_SIZE] at *
        omega
    · simp only [Option.some.injEq] at h
      subst h
      exact heT

theorem derivedEntrySize_eq (files : List SrcFile) :
    entrySizeLoop (2 * derivedStringSize files + BLOCK_SIZE) (2 * derivedStringSize files)
      (derivedStringSize files) = some (derivedEntrySize files) := by
  set ss := derivedStringSize files with hss
  have hmod : ss % 4 = 0 := roundStringSize_mod _
  have hsome := entrySizeLoop_reaches (2 * ss + BLOCK_SIZE) (2 * ss) ss
    ⟨3 * (ss / 4), by constructor <;> simp only [BLOCK_SIZE] <;> omega⟩
  rw [derivedEntrySize]
  simp only [← hss]
  obtain ⟨r, hr⟩ := Option.isSome_iff_exists.mp hsome
  rw [hr]
  simp

theorem derivedEntrySize_spec (files : List SrcFile) :
    2 * derivedStringSize files ≤ derivedEntrySize files ∧
      derivedEntrySize files % 16 = 0 ∧
      derivedStringSize files ≤ derivedEntrySize files ∧
      derivedEntrySize files ≤ 2 * derivedStringSize files + 8 := by
  have h := derivedEntrySize_eq files
  have hspec := entrySizeLoop_spec _ _ _ _ h
  have hmod : derivedStringSize files % 4 = 0 := roundStringSize_mod _
  set ss := derivedStringSize files
  have hub := entrySizeLoop_le _ _ _ _ (2 * ss + 8 * ((ss / 4) % 2)) h
    (by omega) (by simp only [BLOCK_SIZE]; omega) (by omega) (by omega)
  simp only [BLOCK_SIZE] at hspec
  refine ⟨hspec.1, hspec.2.1, hspec.2.2, by omega⟩

theorem derivedEntrySize_ge (files : List SrcFile)
    (h0 : derivedStringSize files ≠ 0) (h8 : derivedStringSize files ≠ 8) :
    derivedStringSize files + 12 ≤ derivedEntrySize files := by
  have hspec := derivedEntrySize_spec files
  have hmod : derivedStringSize files % 4 = 0 := roundStringSize_mod _
  omega

/-! ### Name-length fold lemmas -/

theorem maxNameLen_foldl_init :
    ∀ (l : List SrcFile) (a : Nat),
      a ≤ l.foldl (fun s f => if s < f.name.length then f.name.length else s) a := by
  intro l
  induction l with
  | nil => intro a; simp
  | cons f l ih =>
    intro a
    refine le_trans ?_ (ih (if a < f.name.length then f.name.length else a))
    split <;> omega

theorem maxNameLen_foldl_mem :
    ∀ (l : List SrcFile) (a : Nat) (f : SrcFile), f ∈ l →
      f.name.length ≤ l.foldl (fun s g => if s < g.name.length then g.name.length else s) a := by
  intro l
  induction l with
  | nil => intro a f hf; simp at hf
  | cons g l ih =>
    intro a f hf
    rcases List.mem_cons.mp hf with hf | hf
    · subst hf
      refine le_trans ?_ (maxNameLen_foldl_init l _)
      dsimp only
      split <;> omega
    · exact ih _ f hf

theorem name_le_maxNameLen (files : List SrcFile) (f : SrcFile) (hf : f ∈ files) :
    f.name.length ≤ maxNameLen files :=
  maxNameLen_foldl_mem files 0 f hf

/-! ### Entry encoding lemmas -/

theorem packBytesField_eq (w : Nat) (b : Bytes) (h : b.length = w) :
    packBytesField w b = b := by
  subst h
  simp [packBytesField]

theorem length_packBytesField (w : Nat) (b : Bytes) : (packBytesField w b).length = w := by
  simp [packBytesField]
  omega

theorem getFormatNumInts_ok (ss es : Nat) (hle : ss ≤ es) (hmod : (es - ss) % 4 = 0) :
    getFormatNumInts ss es = .ok (((es - ss) / 4 : Nat) : Int) := by
  simp only [getFormatNumInts, INT_SIZE]
  rw [if_neg (by omega)]
  congr 1
  omega

theorem length_entryBlock (ss k : Nat) (hk : 3 ≤ k) (f : SrcFile) (idx off : Nat) :
    (entryBlock ss k f idx off).length = ss + 4 * k := by
  simp [entryBlock, length_packBytesField, length_flatten_le32, length_le32]
  omega

theorem sumTake_zero (files : List SrcFile) : sumTake files 0 = 0 := by
  simp [sumTake]

theorem sumTake_cons_succ (f : SrcFile) (rest : List SrcFile) (i : Nat) :
    sumTake (f :: rest) (i + 1) = f.contents.length + sumTake rest i := by
  simp [sumTake]

theorem entryBlocks_chunk (ss k : Nat) (hk : 3 ≤ k) :
    ∀ (files : List SrcFile) (i id0 off0 : Nat) (extra : Bytes) (h : i < files.length),
      ((entryBlocks ss k files id0 off0 ++ extra).drop (i * (ss + 4 * k))).take (ss + 4 * k) =
        entryBlock ss k files[i] (id0 + i) (off0 + sumTake files i) := by
  intro files
  induction files with
  | nil => intro i id0 off0 extra h; simp at h
  | cons f rest ih =>
    intro i id0 off0 extra h
    cases i with
    | zero =>
      simp only [entryBlocks, List.append_assoc, Nat.zero_mul, List.drop_zero,
        List.getElem_cons_zero, Nat.add_zero, sumTake_zero]
      rw [← length_entryBlock ss k hk f id0 off0]
      exact take_append_self _ _
    | succ i =>
      have hlen : (i + 1) * (ss + 4 * k) =
          (entryBlock ss k f id0 off0).length + i * (ss + 4 * k) := by
        rw [length_entryBlock ss k hk]
        ring
      simp only [entryBlocks, List.append_assoc, hlen, drop_append_length]
      rw [ih i (id0 + 1) (off0 + f.contents.length) extra (by simpa using h)]
      simp only [List.getElem_cons_succ, sumTake_cons_succ]
      congr 1 <;> omega

/-! ### Entry decoding lemmas -/

theorem dropWhile_replicate_zero (m : Nat) (l : Bytes) :
    (List.replicate m 0 ++ l).dropWhile (fun x => x == 0) =
      l.dropWhile (fun x => x == 0) := by
  induction m with
  | zero => simp
  | succ m ih => simp [List.replicate_succ, ih]

theorem rstripNulls_pad (b : Bytes) (m : Nat) (hlast : b.getLast? ≠ some 0) :
    rstripNulls (b ++ List.replicate m 0) = b := by
  unfold rstripNulls
  rw [List.reverse_append, List.reverse_replicate, dropWhile_replicate_zero]
  have hself : b.reverse.dropWhile (fun x => x == 0) = b.reverse := by
    cases hb : b.reverse with
    | nil => simp
    | cons x t =>
      have hx : x ≠ 0 := by
        intro h0
        apply hlast
        rw [← List.head?_reverse, hb, h0]
        rfl
      simp [List.dropWhile_cons, hx]
  rw [hself, List.reverse_reverse]

theorem decodeEntry_entryBlock (ss k : Nat) (f : SrcFile) (idx off : Nat)
    (hk : 3 ≤ k) (hss4 : ss % 4 = 0)
    (hname : f.name.length ≤ ss) (hlast : f.name.getLast? ≠ some 0)
    (h1 : idx < 4294967296) (h2 : off < 4294967296)
    (h3 : f.contents.length < 4294967296) :
    decodeEntry ss k (entryBlock ss k f idx off) =
      .ok ⟨f.name, idx, off, f.contents.length⟩ := by
  have halign : alignIntOffset ss = ss := by
    unfold alignIntOffset
    omega
  have hcalc : entryCalcSize ss k = ss + INT_SIZE * k := by
    rw [entryCalcSize, if_neg (by omega), halign]
  set ints0 : List Nat :=
    [idx, off, f.contents.length] ++ List.replicate (k - 3) 0 with hints0
  have hints0len : ints0.length = k := by simp [hints0]; omega
  have hall : ∀ n ∈ ints0, n < 4294967296 := by
    intro n hn
    simp only [hints0, List.mem_append, List.mem_cons, List.not_mem_nil, or_false,
      List.mem_replicate] at hn
    rcases hn with (h | h | h) | ⟨-, h⟩ <;> subst h <;> omega
  have hpadlen : (f.name ++ List.replicate (ss - f.name.length) 0).length = ss := by
    simp; omega
  have hblock : entryBlock ss k f idx off =
      (f.name ++ List.replicate (ss - f.name.length) 0) ++ (ints0.map le32).flatten := by
    rw [entryBlock, packBytesField_eq _ _ hpadlen]
  have hlen : (entryBlock ss k f idx off).length = ss + INT_SIZE * k := by
    rw [length_entryBlock ss k hk, INT_SIZE]
  have htake : (entryBlock ss k f idx off).take ss =
      f.name ++ List.replicate (ss - f.name.length) 0 := by
    rw [hblock, take_append_eq _ _ _ hpadlen]
  have hdrop : ∀ j, j < k →
      (entryBlock ss k f idx off).drop (ss + INT_SIZE * j) =
        ((ints0.map le32).flatten).drop (4 * j) := by
    intro j hj
    rw [hblock, INT_SIZE, drop_append_eq _ _ _ _ hpadlen]
  have hints : ((List.range k).map fun i =>
      readU32 ((entryBlock ss k f idx off).drop (alignIntOffset ss + INT_SIZE * i))) =
      ints0 := by
    simp only [halign]
    apply List.ext_getElem
    · simpa using hints0len.symm
    · intro i hi hi2
      rw [List.getElem_map, List.getElem_range]
      have hik : i < k := by simpa using hi
      rw [hdrop i hik, readU32_flatten_le32 ints0 hall i (by omega)]
  have h0 : ints0[0]? = some idx := by simp [hints0]
  have h1v : ints0[1]? = some off := by simp [hints0]
  have h2v : ints0[2]? = some f.contents.length := by simp [hints0]
  rw [decodeEntry, if_neg (by rw [hlen, hcalc]; exact fun hcon => hcon rfl)]
  simp only [hints, htake, h0, h1v, h2v]
  simp [rstripNulls_pad f.name _ hlast]

/-! ### Writer correctness lemmas -/

theorem totalFileSize_cons (f : SrcFile) (rest : List SrcFile) :
    totalFileSize (f :: rest) = f.contents.length + totalFileSize rest := by
  simp [totalFileSize]

theorem sum_take_le (l : List Nat) (i : Nat) : (l.take i).sum ≤ l.sum := by
  conv_rhs => rw [← List.take_append_drop i l]
  rw [List.sum_append]
  omega

theorem sumTake_le_totalFileSize (files : List SrcFile) (i : Nat) :
    sumTake files i ≤ totalFileSize files := by
  have h : sumTake files i = (((files.map fun f => f.contents.length).take i)).sum := by
    simp [sumTake, List.map_take]
  rw [h, totalFileSize]
  exact sum_take_le _ i

theorem size_le_totalFileSize (files : List SrcFile) (f : SrcFile) (hf : f ∈ files) :
    f.contents.length ≤ totalFileSize files := by
  induction files with
  | nil => simp at hf
  | cons g rest ih =>
    rw [totalFileSize_cons]
    rcases List.mem_cons.mp hf with h | h
    · subst h; omega
    · have := ih h; omega

theorem buildHeader_ok (total_size data_start string_size file_count : Nat)
    (ht : total_size < 4294967296) (hd : data_start < 4294967296)
    (hs : string_size < 4294967296) (hc : file_count < 4294967296) :
    buildHeader total_size data_start string_size file_count =
      .ok (headerBytesSpec total_size data_start string_size file_count) := by
  rw [buildHeader,
    mapExcept_packU32 [data_start, total_size, file_count] (by intro n hn; simp at hn; omega),
    mapExcept_packU32 [1, string_size, 0, 0] (by intro n hn; simp at hn; omega)]
  simp [headerBytesSpec, List.append_assoc]

theorem length_headerBytesSpec (t d s c : Nat) : (headerBytesSpec t d s c).length = 32 := rfl

theorem length_entryBlocks (ss k : Nat) (hk : 3 ≤ k) :
    ∀ (files : List SrcFile) (id0 off0 : Nat),
      (entryBlocks ss k files id0 off0).length = files.length * (ss + 4 * k) := by
  intro files
  induction files with
  | nil => intro id0 off0; simp [entryBlocks]
  | cons f rest ih =>
    intro id0 off0
    simp [entryBlocks, length_entryBlock ss k hk, ih]
    ring

theorem buildEntriesGo_ok (ss k : Nat) (hk : 3 ≤ k) (hss4 : ss % 4 = 0) :
    ∀ (files : List SrcFile) (id0 off0 : Nat),
      (∀ f ∈ files, f.name.length ≤ ss) →
      id0 + files.length < 4294967296 →
      off0 + totalFileSize files < 4294967296 →
      buildEntriesGo ss k (List.replicate (k - 3) 0)
        (files.map fun f => (f, f.name.length, f.contents.length)) id0 off0 =
        .ok (entryBlocks ss k files id0 off0) := by
  intro files
  induction files with
  | nil => intro id0 off0 _ _ _; rfl
  | cons f rest ih =>
    intro id0 off0 hnames hid hoff
    have hnf : f.name.length ≤ ss := hnames f (by simp)
    have hrest := ih (id0 + 1) (off0 + f.contents.length)
      (fun g hg => hnames g (List.mem_cons_of_mem _ hg))
      (by simp at hid; omega)
      (by rw [totalFileSize_cons] at hoff; omega)
    have hall : ∀ n ∈ [id0, off0, f.contents.length] ++ List.replicate (k - 3) 0,
        n < 4294967296 := by
      intro n hn
      have hfle : f.contents.length ≤ totalFileSize (f :: rest) := by
        rw [totalFileSize_cons]; omega
      simp only [List.mem_append, List.mem_cons, List.not_mem_nil, or_false,
        List.mem_replicate] at hn
      rcases hn with (h | h | h) | ⟨-, h⟩ <;> subst h <;> omega
    have hpad0 : entryPackPad ss k = [] := by
      rw [entryPackPad, if_neg (by omega)]
      have halign : alignIntOffset ss = ss := by
        unfold alignIntOffset
        omega
      rw [halign]
      simp
    simp only [List.map_cons, buildEntriesGo]
    rw [if_neg (by omega), if_neg (by simp only [List.length_replicate]; omega),
      mapExcept_packU32 _ hall, hrest, hpad0, List.append_nil]
    rfl

theorem buildFileEntries_ok (files : List SrcFile) (ss es : Nat)
    (h12 : ss + 12 ≤ es) (hmod : (es - ss) % 4 = 0) (hss4 : ss % 4 = 0)
    (hnames : ∀ f ∈ files, f.name.length ≤ ss)
    (hid : files.length < 4294967296)
    (hoff : totalFileSize files < 4294967296) :
    buildFileEntries (files.map fun f => (f, f.name.length, f.contents.length)) ss es =
      .ok (entryBlocks ss ((es - ss) / 4) files 0 0) := by
  have hk : 3 ≤ (es - ss) / 4 := by omega
  rw [buildFileEntries, getFormatNumInts_ok ss es (by omega) hmod]
  have htoNat : (((es - ss) / 4 : Nat) : Int).toNat = (es - ss) / 4 := by omega
  have hpad : ((((es : Int) - (ss : Int) - 3 * ((INT_SIZE : Nat) : Int)) /
      ((INT_SIZE : Nat) : Int)).toNat) = (es - ss) / 4 - 3 := by
    simp only [INT_SIZE]
    omega
  simp only [htoNat, hpad]
  simpa using buildEntriesGo_ok ss ((es - ss) / 4) hk hss4 files 0 0 hnames (by omega) (by omega)

theorem buildFileContents_map (files : List SrcFile) :
    buildFileContents (files.map fun f => (f, f.name.length, f.contents.length)) =
      (files.map fun f => f.contents).flatten := by
  simp [buildFileContents, Function.comp_def]

theorem length_flatten_contents (files : List SrcFile) :
    ((files.map fun f => f.contents).flatten).length = totalFileSize files := by
  simp [List.length_flatten, totalFileSize, Function.comp_def]

/-! ### Header round-trip lemmas -/

theorem unpackFromIII_le32 (a b c : Nat) (r : Bytes)
    (ha : a < 4294967296) (hb : b < 4294967296) (hc : c < 4294967296) :
    unpackFromIII (le32 a ++ le32 b ++ le32 c ++ r) = .ok ((a, b, c), r) := by
  simp only [List.append_assoc]
  have h4 : (le32 a ++ (le32 b ++ (le32 c ++ r))).drop 4 = le32 b ++ (le32 c ++ r) := rfl
  have h8 : (le32 a ++ (le32 b ++ (le32 c ++ r))).drop 8 = le32 c ++ r := rfl
  have h12 : (le32 a ++ (le32 b ++ (le32 c ++ r))).drop 12 = r := rfl
  have hlen : ¬((le32 a ++ (le32 b ++ (le32 c ++ r))).length < 12) := by
    simp [le32]
  rw [unpackFromIII, if_neg hlen, h4, h8, h12,
    readU32_le32_append a _ ha, readU32_le32_append b _ hb, readU32_le32_append c _ hc]

theorem unpackFromIIII_le32 (a b c d : Nat) (r : Bytes)
    (ha : a < 4294967296) (hb : b < 4294967296) (hc : c < 4294967296)
    (hd : d < 4294967296) :
    unpackFromIIII (le32 a ++ le32 b ++ le32 c ++ le32 d ++ r) = .ok ((a, b, c, d), r) := by
  simp only [List.append_assoc]
  have h4 : (le32 a ++ (le32 b ++ (le32 c ++ (le32 d ++ r)))).drop 4 =
      le32 b ++ (le32 c ++ (le32 d ++ r)) := rfl
  have h8 : (le32 a ++ (le32 b ++ (le32 c ++ (le32 d ++ r)))).drop 8 =
      le32 c ++ (le32 d ++ r) := rfl
  have h12 : (le32 a ++ (le32 b ++ (le32 c ++ (le32 d ++ r)))).drop 12 = le32 d ++ r := rfl
  have h16 : (le32 a ++ (le32 b ++ (le32 c ++ (le32 d ++ r)))).drop 16 = r := rfl
  have hlen : ¬((le32 a ++ (le32 b ++ (le32 c ++ (le32 d ++ r)))).length < 16) := by
    simp [le32]
  rw [unpackFromIIII, if_neg hlen, h4, h8, h12, h16,
    readU32_le32_append a _ ha, readU32_le32_append b _ hb, readU32_le32_append c _ hc,
    readU32_le32_append d _ hd]

theorem parseHeader_headerBytesSpec (t d s c : Nat) (rest : Bytes)
    (ht : t < 4294967296) (hd : d < 4294967296) (hs : s < 4294967296)
    (hc : c < 4294967296) (hc0 : c ≠ 0)
    (hdvd : ((d : Int) - 32) % (c : Int) = 0) :
    parseHeader (headerBytesSpec t d s c ++ rest) =
      .ok ⟨d, s, c, ((d : Int) - 32) / (c : Int), rest⟩ := by
  have hassoc : headerBytesSpec t d s c ++ rest =
      PAC_MAGIC ++ (le32 d ++ le32 t ++ le32 c ++
        (le32 1 ++ le32 s ++ le32 0 ++ le32 0 ++ rest)) := by
    simp [headerBytesSpec, List.append_assoc]
  rw [hassoc, parseHeader]
  rw [if_neg (by rw [take_append_eq _ _ _ rfl]; exact fun hcon => hcon rfl)]
  simp only [drop_append_self,
    unpackFromIII_le32 d t c _ hd ht hc,
    unpackFromIIII_le32 1 s 0 0 rest (by omega) hs (by omega) (by omega)]
  rw [if_neg hc0]
  have hfix : ((PAC_HEADER_SIZE : Nat) : Int) = (32 : Int) := rfl
  rw [hfix, if_neg (by rw [hdvd]; exact fun hcon => hcon rfl)]

/-- Every successful build produces exactly the specified bytes. -/
theorem createPac_ok (files : List SrcFile)
    (h12 : derivedStringSize files + 12 ≤ derivedEntrySize files)
    (hsz : PAC_HEADER_SIZE + files.length * derivedEntrySize files + totalFileSize files <
      4294967296) :
    createPac files = .ok (pacBytesSpec files) := by
  have hspec := derivedEntrySize_spec files
  have hss4 : derivedStringSize files % 4 = 0 := roundStringSize_mod _
  have hmod : (derivedEntrySize files - derivedStringSize files) % 4 = 0 := by omega
  have hnames : ∀ f ∈ files, f.name.length ≤ derivedStringSize files := fun f hf =>
    le_trans (name_le_maxNameLen files f hf) (le_roundStringSize _)
  have hnlt : files.length < 4294967296 := by
    have h1 : files.length ≤ files.length * derivedEntrySize files :=
      Nat.le_mul_of_pos_right _ (by omega)
    omega
  have hslt : derivedStringSize files < 4294967296 := by
    rcases files with - | ⟨f, rest⟩
    · decide
    · have h1 : derivedEntrySize (f :: rest) ≤ (f :: rest).length * derivedEntrySize (f :: rest) :=
        Nat.le_mul_of_pos_left _ (by simp)
      omega
  have hbh := buildHeader_ok
    (PAC_HEADER_SIZE + files.length * derivedEntrySize files + totalFileSize files)
    (PAC_HEADER_SIZE + files.length * derivedEntrySize files)
    (derivedStringSize files) files.length (by omega) (by omega) hslt hnlt
  have hbe := buildFileEntries_ok files (derivedStringSize files) (derivedEntrySize files)
    h12 hmod hss4 hnames hnlt (by omega)
  have hX : (headerBytesSpec
      (PAC_HEADER_SIZE + files.length * derivedEntrySize files + totalFileSize files)
      (PAC_HEADER_SIZE + files.length * derivedEntrySize files)
      (derivedStringSize files) files.length ++
        entryBlocks (derivedStringSize files)
          ((derivedEntrySize files - derivedStringSize files) / 4) files 0 0 ++
        (files.map fun f => f.contents).flatten).length =
      PAC_HEADER_SIZE + files.length * derivedEntrySize files + totalFileSize files := by
    have hes4 : derivedStringSize files +
        4 * ((derivedEntrySize files - derivedStringSize files) / 4) =
        derivedEntrySize files := by omega
    simp only [List.length_append, length_headerBytesSpec,
      length_entryBlocks _ _ (by omega : 3 ≤ (derivedEntrySize files - derivedStringSize files) / 4),
      length_flatten_contents, PAC_HEADER_SIZE, hes4]
  simp only [createPac, parseFileList, hbh, hbe, buildFileContents_map]
  rw [if_neg (by rw [hX]; exact fun hcon => hcon rfl)]
  simp [pacBytesSpec, List.append_assoc]

/-! ### Reading back a built directory -/

theorem enumerateFiles_entryBlocks (files : List SrcFile) (ss es : Nat) (extra : Bytes)
    (h12 : ss + 12 ≤ es) (hmod : (es - ss) % 4 = 0) (hss4 : ss % 4 = 0)
    (hnames : ∀ f ∈ files, f.name.length ≤ ss)
    (hlast : ∀ f ∈ files, f.name.getLast? ≠ some 0)
    (hn : files.length < 4294967296)
    (htot : totalFileSize files < 4294967296) :
    enumerateFiles (entryBlocks ss ((es - ss) / 4) files 0 0 ++ extra) files.length ss es =
      .ok ((List.range files.length).map fun i =>
        ⟨(files.getD i ⟨[], []⟩).name, i, sumTake files i,
          (files.getD i ⟨[], []⟩).contents.length⟩, extra) := by
  have hk3 : 3 ≤ (es - ss) / 4 := by omega
  have hes : ss + 4 * ((es - ss) / 4) = es := by omega
  have htoNat : (((es - ss) / 4 : Nat) : Int).toNat = (es - ss) / 4 := by omega
  have hpoint : ∀ i ∈ List.range files.length,
      decodeEntry ss ((es - ss) / 4)
        (((entryBlocks ss ((es - ss) / 4) files 0 0 ++ extra).drop (i * es)).take es) =
      .ok ⟨(files.getD i ⟨[], []⟩).name, i, sumTake files i,
        (files.getD i ⟨[], []⟩).contents.length⟩ := by
    intro i hi
    have hilt : i < files.length := List.mem_range.mp hi
    have hchunk := entryBlocks_chunk ss ((es - ss) / 4) hk3 files i 0 0 extra hilt
    rw [hes] at hchunk
    rw [hchunk]
    have hmem : files[i] ∈ files := List.getElem_mem hilt
    rw [decodeEntry_entryBlock ss ((es - ss) / 4) files[i] (0 + i) (0 + sumTake files i)
      hk3 hss4 (hnames _ hmem) (hlast _ hmem) (by omega)
      (by have := sumTake_le_totalFileSize files i; omega)
      (by have := size_le_totalFileSize files files[i] hmem; omega)]
    rw [List.getD_eq_getElem files ⟨[], []⟩ hilt]
    simp
  rw [enumerateFiles, getFormatNumInts_ok ss es (by omega) hmod]
  simp only [htoNat]
  rw [mapExcept_ok_of _ _ (List.range files.length) hpoint]
  have hElen : (entryBlocks ss ((es - ss) / 4) files 0 0).length = files.length * es := by
    rw [length_entryBlocks ss _ hk3 files 0 0, hes]
  have hdrop : (entryBlocks ss ((es - ss) / 4) files 0 0 ++ extra).drop
      (files.length * es) = extra := by
    have h := drop_append_eq (entryBlocks ss ((es - ss) / 4) files 0 0) extra
      (files.length * es) 0 hElen
    simpa using h
  rw [hdrop]

theorem flatten_slice :
    ∀ (cs : List Bytes) (i : Nat) (h : i < cs.length),
      (((cs.flatten).drop (((cs.take i).map List.length).sum)).take cs[i].length) = cs[i] := by
  intro cs
  induction cs with
  | nil => intro i h; simp at h
  | cons c rest ih =>
    intro i h
    cases i with
    | zero =>
      simp only [List.take_zero, List.map_nil, List.sum_nil, List.flatten_cons,
        List.drop_zero, List.getElem_cons_zero]
      exact take_append_eq c rest.flatten c.length rfl
    | succ i =>
      have hsum : (((c :: rest).take (i + 1)).map List.length).sum =
          c.length + ((rest.take i).map List.length).sum := by
        simp
      rw [hsum, List.flatten_cons, drop_append_eq c rest.flatten c.length _ rfl,
        List.getElem_cons_succ]
      exact ih i (by simpa using h)

theorem sumTake_as_lengths (files : List SrcFile) (i : Nat) :
    sumTake files i = (((files.map fun f => f.contents).take i).map List.length).sum := by
  simp [sumTake, List.map_take, Function.comp_def]

theorem contents_slice (files : List SrcFile) (i : Nat) (h : i < files.length) :
    ((((files.map fun f => f.contents).flatten).drop (sumTake files i)).take
      files[i].contents.length) = files[i].contents := by
  have h2 : i < (files.map fun f => f.contents).length := by simpa using h
  have hflat := flatten_slice (files.map fun f => f.contents) i h2
  rw [List.getElem_map] at hflat
  rw [sumTake_as_lengths]
  exact hflat

theorem parseHeader_pacBytesSpec (files : List SrcFile)
    (hne : files ≠ [])
    (h12 : derivedStringSize files + 12 ≤ derivedEntrySize files)
    (hsz : PAC_HEADER_SIZE + files.length * derivedEntrySize files + totalFileSize files <
      4294967296) :
    parseHeader (pacBytesSpec files) =
      .ok ⟨PAC_HEADER_SIZE + files.length * derivedEntrySize files,
        derivedStringSize files, files.length, (derivedEntrySize files : Int),
        entryBlocks (derivedStringSize files)
            ((derivedEntrySize files - derivedStringSize files) / 4) files 0 0 ++
          (files.map fun f => f.contents).flatten⟩ := by
  have hspec := derivedEntrySize_spec files
  have hss4 : derivedStringSize files % 4 = 0 := roundStringSize_mod _
  have hn0 : files.length ≠ 0 := by
    intro h
    exact hne (List.length_eq_zero.mp h)
  have hnlt : files.length < 4294967296 := by
    have h1 : files.length ≤ files.length * derivedEntrySize files :=
      Nat.le_mul_of_pos_right _ (by omega)
    omega
  have hslt : derivedStringSize files < 4294967296 := by
    have h1 : derivedEntrySize files ≤ files.length * derivedEntrySize files :=
      Nat.le_mul_of_pos_left _ (by omega)
    omega
  have hcast : (((PAC_HEADER_SIZE + files.length * derivedEntrySize files : Nat) : Int) - 32) =
      (files.length : Int) * (derivedEntrySize files : Int) := by
    push_cast [PAC_HEADER_SIZE]
    ring
  have hdvd : (((PAC_HEADER_SIZE + files.length * derivedEntrySize files : Nat) : Int) - 32) %
      (files.length : Int) = 0 := by
    rw [hcast]
    exact Int.mul_emod_right _ _
  have hdiv : (((PAC_HEADER_SIZE + files.length * derivedEntrySize files : Nat) : Int) - 32) /
      (files.length : Int) = (derivedEntrySize files : Int) := by
    rw [hcast]
    exact Int.mul_ediv_cancel_left _ (by exact_mod_cast hn0)
  rw [pacBytesSpec,
    parseHeader_headerBytesSpec _ _ _ _ _ (by omega) (by omega) hslt hnlt hn0 hdvd, hdiv]

/-- Extracting a successfully built archive recovers every file name and
every file's bytes, in input order. -/
theorem extractPac_pacBytesSpec (files : List SrcFile)
    (hne : files ≠ [])
    (h12 : derivedStringSize files + 12 ≤ derivedEntrySize files)
    (hlast : ∀ f ∈ files, f.name.getLast? ≠ some 0)
    (hsz : PAC_HEADER_SIZE + files.length * derivedEntrySize files + totalFileSize files <
      4294967296) :
    extractPac (pacBytesSpec files) none = .ok (files.map fun f => (f.name, f.contents)) := by
  have hspec := derivedEntrySize_spec files
  have hss4 : derivedStringSize files % 4 = 0 := roundStringSize_mod _
  have hmod : (derivedEntrySize files - derivedStringSize files) % 4 = 0 := by omega
  have hnames : ∀ f ∈ files, f.name.length ≤ derivedStringSize files := fun f hf =>
    le_trans (name_le_maxNameLen files f hf) (le_roundStringSize _)
  have hnlt : files.length < 4294967296 := by
    have h1 : files.length ≤ files.length * derivedEntrySize files :=
      Nat.le_mul_of_pos_right _ (by omega)
    omega
  have htoNatEs : ((derivedEntrySize files : Int)).toNat = derivedEntrySize files := by omega
  have henum := enumerateFiles_entryBlocks files (derivedStringSize files)
    (derivedEntrySize files) ((files.map fun f => f.contents).flatten)
    h12 hmod hss4 hnames hlast hnlt (by omega)
  have hdropDs : (pacBytesSpec files).drop
      (PAC_HEADER_SIZE + files.length * derivedEntrySize files) =
      (files.map fun f => f.contents).flatten := by
    rw [pacBytesSpec]
    have h32 : (headerBytesSpec
        (PAC_HEADER_SIZE + files.length * derivedEntrySize files + totalFileSize files)
        (PAC_HEADER_SIZE + files.length * derivedEntrySize files)
        (derivedStringSize files) files.length).length = PAC_HEADER_SIZE :=
      length_headerBytesSpec _ _ _ _
    have hElen : (entryBlocks (derivedStringSize files)
        ((derivedEntrySize files - derivedStringSize files) / 4) files 0 0).length =
        files.length * derivedEntrySize files := by
      rw [length_entryBlocks _ _ (by omega) files 0 0]
      have hes4 : derivedStringSize files +
          4 * ((derivedEntrySize files - derivedStringSize files) / 4) =
          derivedEntrySize files := by omega
      rw [hes4]
    have hstep1 := drop_append_eq
      (headerBytesSpec
        (PAC_HEADER_SIZE + files.length * derivedEntrySize files + totalFileSize files)
        (PAC_HEADER_SIZE + files.length * derivedEntrySize files)
        (derivedStringSize files) files.length)
      (entryBlocks (derivedStringSize files)
          ((derivedEntrySize files - derivedStringSize files) / 4) files 0 0 ++
        (files.map fun f => f.contents).flatten)
      PAC_HEADER_SIZE (files.length * derivedEntrySize files) h32
    rw [hstep1]
    have hstep2 := drop_append_eq
      (entryBlocks (derivedStringSize files)
        ((derivedEntrySize files - derivedStringSize files) / 4) files 0 0)
      ((files.map fun f => f.contents).flatten)
      (files.length * derivedEntrySize files) 0 hElen
    simpa using hstep2
  rw [extractPac, parseHeader_pacBytesSpec files hne h12 hsz]
  simp only [htoNatEs, henum, hdropDs]
  rw [extractFiles]
  apply congrArg
  apply List.ext_getElem
  · simp
  · intro i hi hi2
    have hilt : i < files.length := by simpa using hi
    simp only [List.getElem_map, List.getElem_range, List.getD_eq_getElem files ⟨[], []⟩ hilt]
    rw [contents_slice files i hilt]

/-! ### Parsing an arbitrary 32-byte header -/

theorem unpackFromIII_at4 (b : Bytes) (hlen : 32 ≤ b.length) :
    unpackFromIII (b.drop 4) =
      .ok ((readU32 (b.drop 4), readU32 (b.drop 8), readU32 (b.drop 12)), b.drop 16) := by
  rw [unpackFromIII, if_neg (by simp; omega)]
  simp [List.drop_drop]

theorem unpackFromIIII_at16 (b : Bytes) (hlen : 32 ≤ b.length) :
    unpackFromIIII (b.drop 16) =
      .ok ((readU32 (b.drop 16), readU32 (b.drop 20), readU32 (b.drop 24),
        readU32 (b.drop 28)), b.drop 32) := by
  rw [unpackFromIIII, if_neg (by simp; omega)]
  simp [List.drop_drop]

/-- A parse of any ≥ 32-byte input whose magic matches reaches the
`entry_size` division with the header fields at their fixed offsets. -/
theorem parseHeader_fields (b : Bytes) (hmag : b.take 4 = PAC_MAGIC) (hlen : 32 ≤ b.length) :
    parseHeader b =
      (if readU32 (b.drop 12) = 0 then .error .zeroDivisionError
      else if ((readU32 (b.drop 4) : Int) - 32) % (readU32 (b.drop 12) : Int) ≠ 0 then
        .error .formatError
      else .ok ⟨readU32 (b.drop 4), readU32 (b.drop 20), readU32 (b.drop 12),
        ((readU32 (b.drop 4) : Int) - 32) / (readU32 (b.drop 12) : Int), b.drop 32⟩) := by
  have hfix : ((PAC_HEADER_SIZE : Nat) : Int) = (32 : Int) := rfl
  have hm4 : PAC_MAGIC.length = 4 := rfl
  rw [parseHeader, if_neg (fun hcon => hcon hmag)]
  simp only [hm4, unpackFromIII_at4 b hlen, unpackFromIIII_at16 b hlen, hfix]

/-! ### Name-too-long rejection -/

theorem buildEntriesGo_long (ss k : Nat) (hk : 3 ≤ k) :
    ∀ (files : List SrcFile) (id0 off0 : Nat),
      id0 + files.length < 4294967296 →
      off0 + totalFileSize files < 4294967296 →
      (∃ f ∈ files, ss < f.name.length) →
      buildEntriesGo ss k (List.replicate (k - 3) 0)
        (files.map fun f => (f, f.name.length, f.contents.length)) id0 off0 =
        .error .formatError := by
  intro files
  induction files with
  | nil =>
    intro id0 off0 _ _ hlong
    simp at hlong
  | cons f rest ih =>
    intro id0 off0 hid hoff hlong
    by_cases hf : ss < f.name.length
    · simp only [List.map_cons, buildEntriesGo]
      rw [if_pos hf]
    · obtain ⟨g, hg, hglen⟩ := hlong
      have hgrest : g ∈ rest := by
        rcases List.mem_cons.mp hg with h | h
        · subst h; omega
        · exact h
      have hall : ∀ n ∈ [id0, off0, f.contents.length] ++ List.replicate (k - 3) 0,
          n < 4294967296 := by
        intro n hn
        have hfle : f.contents.length ≤ totalFileSize (f :: rest) := by
          rw [totalFileSize_cons]; omega
        simp only [List.mem_append, List.mem_cons, List.not_mem_nil, or_false,
          List.mem_replicate] at hn
        rcases hn with (h | h | h) | ⟨-, h⟩ <;> subst h <;> omega
      simp only [List.map_cons, buildEntriesGo]
      rw [if_neg hf, if_neg (by simp only [List.length_replicate]; omega),
        mapExcept_packU32 _ hall,
        ih (id0 + 1) (off0 + f.contents.length)
          (by simp at hid; omega)
          (by rw [totalFileSize_cons] at hoff; omega)
          ⟨g, hgrest, hglen⟩]

/-! ### Claim theorems -/

/-- Claim C1: the spec's worked scenario (`a.txt` = "abc", `bb.txt` = "xy")
derives the stated layout (`string_size = 8`, `entry_size = 16`,
`file_count = 2`, `data_start = 64`, `total_size = 69`), but building the
archive does NOT succeed: `entry_size = 16` leaves room for only two `u32`
fields after the 8-byte name, while `_build_file_entries` packs three
(`id`, `offset`, `size`), so `struct.pack` raises `struct.error` and
`create_pac` crashes instead of producing the 69-byte archive the claim
describes. -/
theorem claim1_scenario_layout_but_build_crashes :
    derivedStringSize c1Files = 8 ∧
    c1Files.length = 2 ∧
    derivedEntrySize c1Files = 16 ∧
    totalFileSize c1Files = 5 ∧
    PAC_HEADER_SIZE + c1Files.length * derivedEntrySize c1Files = 64 ∧
    PAC_HEADER_SIZE + c1Files.length * derivedEntrySize c1Files + totalFileSize c1Files = 69 ∧
    createPac c1Files = .error .structError :=
  ⟨rfl, rfl, rfl, rfl, rfl, rfl, rfl⟩

/-- Claim C2 counterexample: the single file `hello` (5-byte name, unique
base names, non-empty) derives `string_size = 8`, `entry_size = 16`, and
the build crashes with `struct.error`, so `extract(build(files))` cannot
reproduce anything: the round-trip claim is false as stated. -/
theorem claim2_counterexample :
    createPac c2CounterFiles = .error .structError ∧
    ¬∃ pac, createPac c2CounterFiles = .ok pac := by
  refine ⟨rfl, ?_⟩
  rintro ⟨pac, hpac⟩
  rw [show createPac c2CounterFiles = .error .structError from rfl] at hpac
  simp at hpac

/-- Claim C2 (amended): for every non-empty list of files with no base name
ending in a null byte, whose longest base-name length is 1–4 or ≥ 9 (so
that the derived `entry_size` has room for the three entry integers — the
lengths 0 and 5–8 crash the writer, see the counterexample), and whose
total archive size fits in a `u32`, building and then extracting
reproduces every file's name and bytes, in input order. -/
theorem claim2_roundtrip (files : List SrcFile)
    (hne : files ≠ [])
    (hlast : ∀ f ∈ files, f.name.getLast? ≠ some 0)
    (hml1 : 1 ≤ maxNameLen files)
    (hml : maxNameLen files ≤ 4 ∨ 9 ≤ maxNameLen files)
    (hsz : PAC_HEADER_SIZE + files.length * derivedEntrySize files + totalFileSize files <
      4294967296) :
    Except.bind (createPac files) (fun pac => extractPac pac none) =
      .ok (files.map fun f => (f.name, f.contents)) := by
  have hdss : derivedStringSize files = roundStringSize (maxNameLen files) := rfl
  have hr1 := le_roundStringSize (maxNameLen files)
  have hr2 := roundStringSize_le (maxNameLen files)
  have hr4 := roundStringSize_mod (maxNameLen files)
  have h12 : derivedStringSize files + 12 ≤ derivedEntrySize files := by
    apply derivedEntrySize_ge files <;> omega
  rw [createPac_ok files h12 hsz]
  simpa [Except.bind] using extractPac_pacBytesSpec files hne h12 hlast hsz

/-- Claim C2 witness: the round trip at the concrete pair
`abcd` ↦ [10, 20], `z` ↦ [7, 8, 9]. -/
theorem claim2_roundtrip_witness :
    Except.bind (createPac c2WitnessFiles) (fun pac => extractPac pac none) =
      .ok [([97, 98, 99, 100], [10, 20]), ([122], [7, 8, 9])] := by
  have h := claim2_roundtrip c2WitnessFiles (by decide) (by decide) (by decide)
    (by decide) (by decide)
  exact h.trans (by rfl)

/-- Claim C3: every layout the writer derives has `string_size` a multiple
of 4, `entry_size` a multiple of 16, and `entry_size ≥ 2 * string_size`. -/
theorem claim3_layout_invariants (files : List SrcFile) (_hne : files ≠ [])
    (string_size file_count entry_size total_file_size : Nat)
    (parsed : List (SrcFile × Nat × Nat))
    (h : parseFileList files =
      (string_size, file_count, entry_size, total_file_size, parsed)) :
    string_size % 4 = 0 ∧ entry_size % 16 = 0 ∧ 2 * string_size ≤ entry_size := by
  rw [parseFileList, Prod.mk.injEq, Prod.mk.injEq, Prod.mk.injEq, Prod.mk.injEq] at h
  obtain ⟨h1, -, h3, -, -⟩ := h
  subst h1
  subst h3
  have hspec := derivedEntrySize_spec files
  have hss4 := roundStringSize_mod (maxNameLen files)
  exact ⟨hss4, by omega, hspec.1⟩

/-- Claim C3 witness: the derived layout for the single file `q` is
`string_size = 4`, `entry_size = 16`, satisfying all three invariants. -/
theorem claim3_witness : 4 % 4 = 0 ∧ 16 % 16 = 0 ∧ 2 * 4 ≤ 16 :=
  claim3_layout_invariants c3WitnessFiles (by decide) 4 1 16 1
    [(⟨[113], [5]⟩, 1, 1)] (by rfl)

theorem readU32_header_drop4 (t d s c : Nat) (rest : Bytes) (hd : d < 4294967296) :
    readU32 ((headerBytesSpec t d s c ++ rest).drop 4) = d := by
  have h4 : (headerBytesSpec t d s c ++ rest).drop 4 =
      le32 d ++ (le32 t ++ (le32 c ++ (le32 1 ++ (le32 s ++ (le32 0 ++ (le32 0 ++ rest)))))) :=
    rfl
  rw [h4, readU32_le32_append d _ hd]

theorem readU32_header_drop8 (t d s c : Nat) (rest : Bytes) (ht : t < 4294967296) :
    readU32 ((headerBytesSpec t d s c ++ rest).drop 8) = t := by
  have h8 : (headerBytesSpec t d s c ++ rest).drop 8 =
      le32 t ++ (le32 c ++ (le32 1 ++ (le32 s ++ (le32 0 ++ (le32 0 ++ rest))))) := rfl
  rw [h8, readU32_le32_append t _ ht]

/-- Claim C4 counterexample: for the non-empty input list holding the
single file `abcdef` (6-byte name) the writer crashes with `struct.error`
before producing any archive, so it does not assign the described entry
fields, `data_start` or `total_size` for every non-empty input list. -/
theorem claim4_counterexample :
    createPac c4CounterFiles = .error .structError ∧
    ¬∃ pac, createPac c4CounterFiles = .ok pac := by
  refine ⟨rfl, ?_⟩
  rintro ⟨pac, hpac⟩
  rw [show createPac c4CounterFiles = .error .structError from rfl] at hpac
  simp at hpac

/-- Claim C4 (amended): whenever the build succeeds — i.e. the derived
layout leaves room for the three entry integers and the sizes fit in u32
(the excluded name-length-0 and 5–8 cases crash the writer, see the
counterexample) — the produced archive has `data_start = 32 + file_count *
entry_size` and `total_size = data_start + Σ sizes` in its header fields,
its length equals `total_size`, and the `i`-th directory slot holds
exactly the entry with id `i` and offset equal to the sum of the sizes of
the preceding files (tight packing, no gaps). -/
theorem claim4_writer_layout (files : List SrcFile)
    (_hne : files ≠ [])
    (h12 : derivedStringSize files + 12 ≤ derivedEntrySize files)
    (hsz : PAC_HEADER_SIZE + files.length * derivedEntrySize files + totalFileSize files <
      4294967296) :
    createPac files = .ok (pacBytesSpec files) ∧
    (pacBytesSpec files).length =
      PAC_HEADER_SIZE + files.length * derivedEntrySize files + totalFileSize files ∧
    readU32 ((pacBytesSpec files).drop 4) =
      PAC_HEADER_SIZE + files.length * derivedEntrySize files ∧
    readU32 ((pacBytesSpec files).drop 8) =
      PAC_HEADER_SIZE + files.length * derivedEntrySize files + totalFileSize files ∧
    ∀ i, (hi : i < files.length) →
      ((pacBytesSpec files).drop (PAC_HEADER_SIZE + i * derivedEntrySize files)).take
          (derivedEntrySize files) =
        entryBlock (derivedStringSize files)
          ((derivedEntrySize files - derivedStringSize files) / 4)
          files[i] i (sumTake files i) := by
  have hspec := derivedEntrySize_spec files
  have hss4 : derivedStringSize files % 4 = 0 := roundStringSize_mod _
  have hk3 : 3 ≤ (derivedEntrySize files - derivedStringSize files) / 4 := by omega
  have hes4 : derivedStringSize files +
      4 * ((derivedEntrySize files - derivedStringSize files) / 4) =
      derivedEntrySize files := by omega
  have hlen2 : (entryBlocks (derivedStringSize files)
      ((derivedEntrySize files - derivedStringSize files) / 4) files 0 0).length =
      files.length * derivedEntrySize files := by
    rw [length_entryBlocks _ _ hk3 files 0 0, hes4]
  have hlenT : (pacBytesSpec files).length =
      PAC_HEADER_SIZE + files.length * derivedEntrySize files + totalFileSize files := by
    simp only [pacBytesSpec, List.length_append, length_headerBytesSpec, hlen2,
      length_flatten_contents, PAC_HEADER_SIZE]
    omega
  refine ⟨createPac_ok files h12 hsz, hlenT, ?_, ?_, ?_⟩
  · rw [pacBytesSpec, readU32_header_drop4 _ _ _ _ _ (by omega)]
  · rw [pacBytesSpec, readU32_header_drop8 _ _ _ _ _ (by omega)]
  · intro i hi
    have hchunk := entryBlocks_chunk (derivedStringSize files)
      ((derivedEntrySize files - derivedStringSize files) / 4) hk3 files i 0 0
      ((files.map fun f => f.contents).flatten) hi
    rw [hes4] at hchunk
    have hdrop : (pacBytesSpec files).drop (PAC_HEADER_SIZE + i * derivedEntrySize files) =
        (entryBlocks (derivedStringSize files)
            ((derivedEntrySize files - derivedStringSize files) / 4) files 0 0 ++
          (files.map fun f => f.contents).flatten).drop (i * derivedEntrySize files) := by
      rw [pacBytesSpec]
      exact drop_append_eq _ _ PAC_HEADER_SIZE (i * derivedEntrySize files)
        (length_headerBytesSpec _ _ _ _)
    rw [hdrop, hchunk]
    simp

/-- Claim C4 witness: building `n1` ↦ [1, 2], `n2` ↦ [3], `n3` ↦ [] gives
an 83-byte archive with `data_start = 80`, `total_size = 83`, and the
middle directory slot carries id 1 and offset 2 = |contents of n1|. -/
theorem claim4_witness :
    createPac c4WitnessFiles = .ok (pacBytesSpec c4WitnessFiles) ∧
    (pacBytesSpec c4WitnessFiles).length = 83 ∧
    readU32 ((pacBytesSpec c4WitnessFiles).drop 4) = 80 ∧
    readU32 ((pacBytesSpec c4WitnessFiles).drop 8) = 83 ∧
    ((pacBytesSpec c4WitnessFiles).drop (PAC_HEADER_SIZE + 1 * derivedEntrySize c4WitnessFiles)).take
        (derivedEntrySize c4WitnessFiles) =
      [110, 50, 0, 0, 1, 0, 0, 0, 2, 0, 0, 0, 1, 0, 0, 0] := by
  obtain ⟨h1, h2, h3, h4, h5⟩ :=
    claim4_writer_layout c4WitnessFiles (by decide) (by decide) (by decide)
  exact ⟨h1, h2.trans (by rfl), h3.trans (by rfl), h4.trans (by rfl),
    (h5 1 (by decide)).trans (by rfl)⟩

/-- Claim C5 counterexample: the 4-byte input consisting of just the magic
marker has a correct magic and (vacuously) no divisibility failure, yet
header decoding fails with `struct.error` (short buffer), not with the
claimed format error or a success — so the trichotomy is false over
arbitrary byte strings. -/
theorem claim5_counterexample :
    PAC_MAGIC.take PAC_MAGIC.length = PAC_MAGIC ∧
    parseHeader PAC_MAGIC = .error .structError :=
  ⟨rfl, rfl⟩

/-- Claim C5 (amended): for every input of at least 32 bytes whose
`file_count` field is nonzero (shorter inputs raise `struct.error`, a zero
count raises `ZeroDivisionError` — see C9), header decoding fails with a
format error exactly when the magic mismatches or `file_count` does not
divide `data_start - 32`, and otherwise returns the parsed `data_start`,
`string_size`, `file_count` and `entry_size = (data_start - 32) /
file_count`. -/
theorem claim5_parse_trichotomy (b : Bytes)
    (hlen : 32 ≤ b.length)
    (hfc : readU32 (b.drop 12) ≠ 0) :
    (b.take 4 ≠ PAC_MAGIC → parseHeader b = .error .formatError) ∧
    (b.take 4 = PAC_MAGIC →
      (((readU32 (b.drop 4) : Int) - 32) % (readU32 (b.drop 12) : Int) ≠ 0 →
        parseHeader b = .error .formatError) ∧
      (((readU32 (b.drop 4) : Int) - 32) % (readU32 (b.drop 12) : Int) = 0 →
        parseHeader b = .ok ⟨readU32 (b.drop 4), readU32 (b.drop 20), readU32 (b.drop 12),
          ((readU32 (b.drop 4) : Int) - 32) / (readU32 (b.drop 12) : Int), b.drop 32⟩)) := by
  constructor
  · intro hmag
    rw [parseHeader, if_pos (show b.take PAC_MAGIC.length ≠ PAC_MAGIC from hmag)]
  · intro hmag
    rw [parseHeader_fields b hmag hlen, if_neg hfc]
    constructor
    · intro hndvd
      rw [if_pos hndvd]
    · intro hdvd
      rw [if_neg (fun hcon => hcon hdvd)]

/-- Claim C5 witness: the well-formed header announcing `data_start = 64`,
`total_size = 69`, `file_count = 2`, `string_size = 8` parses to
`entry_size = (64 - 32) / 2 = 16`. -/
theorem claim5_witness :
    parseHeader c5WitnessHeader = .ok ⟨64, 8, 2, 16, []⟩ := by
  have h := ((claim5_parse_trichotomy c5WitnessHeader (by decide) (by decide)).2
    (by rfl)).2 (by decide)
  exact h.trans (by rfl)

/-- Claim C6: extraction slices each extracted file as
`payload[offset : offset + size]` where `payload` is the archive from
`data_start` on and `offset`/`size` are the entry's own stored fields —
the output is a pointwise map over the entry list, with no dependence of
one entry's slice on the other entries. -/
theorem claim6_extract_stored_offsets (pac_contents : Bytes) (h : ParsedHeader)
    (file_list : List FileEntry) (rest : Bytes)
    (hp : parseHeader pac_contents = .ok h)
    (he : enumerateFiles h.remaining h.file_count h.string_size h.entry_size.toNat =
      .ok (file_list, rest)) :
    extractPac pac_contents none = .ok (file_list.map fun e =>
      (e.name, ((pac_contents.drop h.data_start).drop e.offset).take e.size)) := by
  simp only [extractPac, hp, he]
  rfl

/-- Claim C6 witness: on the hand-built archive, the single entry
(offset 0, size 2) extracts exactly the payload `"xy"`. -/
theorem claim6_witness :
    extractPac c6SamplePac none = .ok [([97, 98], [120, 121])] := by
  have h := claim6_extract_stored_offsets c6SamplePac
    ⟨48, 4, 1, 16, c6SamplePac.drop 32⟩ [⟨[97, 98], 0, 0, 2⟩] [120, 121]
    (by rfl) (by rfl)
  exact h.trans (by rfl)

/-- Claim C7: filtered extraction writes exactly the entries the filter
accepts — the output equals the extraction of the filtered entry list, and
an excluded entry contributes no (name, bytes) pair at all. -/
theorem claim7_filter_exact (pac_contents : Bytes) (file_list : List FileEntry)
    (p : FileEntry → Bool) :
    extractFiles pac_contents file_list (some p) =
      (file_list.filter p).map
        (fun e => (e.name, (pac_contents.drop e.offset).take e.size)) ∧
    extractFiles pac_contents file_list (some p) =
      extractFiles pac_contents (file_list.filter p) none :=
  ⟨rfl, rfl⟩

/-- Claim C8: encoding a directory whose layout is well formed (format
divisible, room for the three entry integers, sizes in u32 range) fails
with the library's format error (`ValueError("Name too long!")`) whenever
some file's base name exceeds `string_size` — the name is checked before
packing and is never truncated. -/
theorem claim8_name_too_long (files : List SrcFile) (string_size entry_size : Nat)
    (h12 : string_size + 12 ≤ entry_size)
    (hmod : (entry_size - string_size) % 4 = 0)
    (hbound : files.length + totalFileSize files < 4294967296)
    (hlong : ∃ f ∈ files, string_size < f.name.length) :
    buildFileEntries (files.map fun f => (f, f.name.length, f.contents.length))
      string_size entry_size = .error .formatError := by
  have hk : 3 ≤ (entry_size - string_size) / 4 := by omega
  rw [buildFileEntries, getFormatNumInts_ok string_size entry_size (by omega) hmod]
  have htoNat : (((entry_size - string_size) / 4 : Nat) : Int).toNat =
      (entry_size - string_size) / 4 := by omega
  have hpad : ((((entry_size : Int) - (string_size : Int) - 3 * ((INT_SIZE : Nat) : Int)) /
      ((INT_SIZE : Nat) : Int)).toNat) = (entry_size - string_size) / 4 - 3 := by
    simp only [INT_SIZE]
    omega
  simp only [htoNat, hpad]
  exact buildEntriesGo_long string_size _ hk files 0 0 (by omega) (by omega) hlong

/-- Claim C8 witness: with the (pre-seeded) layout `string_size = 4`,
`entry_size = 16`, the 5-byte name `longn` is rejected with the format
error. -/
theorem claim8_witness :
    buildFileEntries (c8WitnessFiles.map fun f => (f, f.name.length, f.contents.length))
      4 16 = .error .formatError :=
  claim8_name_too_long c8WitnessFiles 4 16 (by decide) (by decide) (by decide) (by decide)

/-- Claim C9: for every ≥ 32-byte input with the correct magic and a zero
`file_count` field, header parsing crashes with `ZeroDivisionError` — not
the documented format error — and so do enumeration and extraction.  The
writer itself produces such an archive from an empty file list (see the
witness). -/
theorem claim9_zero_file_count (b : Bytes)
    (hmag : b.take 4 = PAC_MAGIC)
    (hlen : 32 ≤ b.length)
    (hfc : readU32 (b.drop 12) = 0) :
    parseHeader b = .error .zeroDivisionError ∧
    enumeratePac b = .error .zeroDivisionError ∧
    extractPac b none = .error .zeroDivisionError := by
  have hp : parseHeader b = .error .zeroDivisionError := by
    rw [parseHeader_fields b hmag hlen, if_pos hfc]
  exact ⟨hp, by rw [enumeratePac, hp], by rw [extractPac, hp]⟩

/-- Claim C9 witness: `create_pac` on an empty file list happily writes a
32-byte archive with `file_count = 0`, and parsing or enumerating that
very archive raises `ZeroDivisionError`. -/
theorem claim9_witness :
    createPac [] = .ok c9EmptyPac ∧
    parseHeader c9EmptyPac = .error .zeroDivisionError ∧
    enumeratePac c9EmptyPac = .error .zeroDivisionError := by
  have h := claim9_zero_file_count c9EmptyPac (by rfl) (by decide) (by rfl)
  exact ⟨by rfl, h.1, h.2.1⟩

theorem decodeEntry_indexError (ss k : Nat) (entry_data : Bytes)
    (hss4 : ss % 4 = 0)
    (hlen : entry_data.length = ss + INT_SIZE * k) (hk : k ≤ 2) :
    decodeEntry ss k entry_data = .error .indexError := by
  have halign : alignIntOffset ss = ss := by
    unfold alignIntOffset
    omega
  have hcalc : entryCalcSize ss k = ss + INT_SIZE * k := by
    by_cases hk0 : k = 0
    · subst hk0
      simp [entryCalcSize, INT_SIZE]
    · rw [entryCalcSize, if_neg hk0, halign]
  rw [decodeEntry, if_neg (by rw [hlen, hcalc]; exact fun hcon => hcon rfl)]
  have h2 : ((List.range k).map fun i =>
      readU32 (entry_data.drop (alignIntOffset ss + INT_SIZE * i)))[2]? = none :=
    List.getElem?_eq_none (by simpa using hk)
  simp only [h2]
  cases h0 : ((List.range k).map fun i =>
      readU32 (entry_data.drop (alignIntOffset ss + INT_SIZE * i)))[0]? <;>
    cases h1 : ((List.range k).map fun i =>
      readU32 (entry_data.drop (alignIntOffset ss + INT_SIZE * i)))[1]? <;>
    rfl

/-- Claim C10 counterexample: the unaligned layout `string_size = 5`,
`entry_size = 9` has `entry_size - string_size = 4`, divisible by 4 and
smaller than 12, and format derivation succeeds — but decoding the first
directory entry fails with `struct.error`, not the claimed `IndexError`:
the native-mode format `"5sI"` has `calcsize = 12` (three alignment pad
bytes before the integer), so the at-most-9-byte entry slice is already
rejected by `struct.unpack` before any tuple access. -/
theorem claim10_counterexample :
    getFormatNumInts 5 9 = .ok 1 ∧
    enumerateFiles c10CounterData 1 5 9 = .error .structError ∧
    enumerateFiles c10CounterData 1 5 9 ≠ .error .indexError := by
  refine ⟨rfl, rfl, ?_⟩
  intro hcon
  rw [show enumerateFiles c10CounterData 1 5 9 = .error .structError from rfl] at hcon
  simp at hcon

/-- Claim C10 (amended): for every layout whose `string_size` is a
multiple of 4 (as every layout the writer derives is — unaligned name
widths instead die in `struct.unpack` on the padded format, see the
counterexample) with `entry_size - string_size` nonnegative, divisible by
4 and smaller than 12, format derivation succeeds, yet decoding the first
directory entry fails with `IndexError` (tuple index out of range) — not
a format error: the derived layout is never validated to contain the
three required integer fields. -/
theorem claim10_layout_not_validated (string_size entry_size file_count : Nat)
    (pac_contents : Bytes)
    (hss4 : string_size % 4 = 0)
    (hle : string_size ≤ entry_size)
    (hlt : entry_size < string_size + 12)
    (hmod : (entry_size - string_size) % 4 = 0)
    (hfc : 1 ≤ file_count)
    (hlen : entry_size ≤ pac_contents.length) :
    getFormatNumInts string_size entry_size =
      .ok (((entry_size - string_size) / 4 : Nat) : Int) ∧
    enumerateFiles pac_contents file_count string_size entry_size = .error .indexError := by
  have hfmt := getFormatNumInts_ok string_size entry_size hle hmod
  refine ⟨hfmt, ?_⟩
  have htoNat : (((entry_size - string_size) / 4 : Nat) : Int).toNat =
      (entry_size - string_size) / 4 := by omega
  have hk2 : (entry_size - string_size) / 4 ≤ 2 := by omega
  have hdec : decodeEntry string_size ((entry_size - string_size) / 4)
      ((pac_contents.drop (0 * entry_size)).take entry_size) = .error .indexError := by
    apply decodeEntry_indexError
    · exact hss4
    · simp only [Nat.zero_mul, List.drop_zero, List.length_take, INT_SIZE]
      omega
    · exact hk2
  obtain ⟨m, hm⟩ : ∃ m, file_count = m + 1 := ⟨file_count - 1, by omega⟩
  subst hm
  rw [enumerateFiles, hfmt]
  simp only [htoNat, List.range_succ_eq_map, mapExcept, hdec]

/-- Claim C10 witness: with `string_size = 8`, `entry_size = 16` (the
layout the writer derives for 5–8 byte names) format derivation yields two
integer fields, and decoding one 16-byte directory entry fails with
`IndexError` when reading the size field. -/
theorem claim10_witness :
    getFormatNumInts 8 16 = .ok 2 ∧
    enumerateFiles c10WitnessData 1 8 16 = .error .indexError := by
  have h := claim10_layout_not_validated 8 16 1 c10WitnessData (by decide) (by decide)
    (by decide) (by decide) (by decide) (by decide)
  exact ⟨h.1.trans (by rfl), h.2⟩

end Libpac
